import Mathlib

/-!
Shallow embedding of the background-cycling hook (`useBackgroundCycle` and its
color helpers) from the repository source, together with theorems settling the
spec claims about it.

Modelling conventions:
* JavaScript numbers are modelled as exact rationals (`ℚ`).  Every concrete
  value the claims touch (products of small integers with 1.05 or 1.25, and
  the comparison `a / 255 < 0.1` for integer `a ≤ 255`) is far from any IEEE
  double rounding boundary, so exact rational arithmetic agrees with the
  source's double arithmetic on all of them.
* `Math.round x` is `⌊x + 1/2⌋` (round half toward positive infinity),
  written `jsRound`.
* The asynchronous environment (image decode outcome, raster availability,
  pixel readback) is an explicit `ImageOutcome` value; `computeAverageColor`
  is the total function the promise resolves with.
* The hook itself is a discrete-event machine (`step`/`run` below): events
  are interval ticks, the fade-clear timeout firing, and the arrival of an
  asynchronous color sample.  Wall-clock durations are abstracted into the
  event order, using the standard browser guarantee that a re-render and its
  effect processing complete before any positive-delay timer callback runs.
-/

namespace BackgroundCycle

/-- `clamp` from the source: `Math.max(min, Math.min(max, value))`. -/
def clamp (value lo hi : ℚ) : ℚ :=
  max lo (min hi value)

/-- `Math.round`: round half toward positive infinity. -/
def jsRound (q : ℚ) : ℤ :=
  ⌊q + 1/2⌋

/-- `toRgbTripletString` from the source: the template literal
`Math.round(r)` ++ `" "` ++ `Math.round(g)` ++ `" "` ++ `Math.round(b)`. -/
def toRgbTripletString (r g b : ℚ) : String :=
  toString (jsRound r) ++ " " ++ toString (jsRound g) ++ " " ++ toString (jsRound b)

/-- The `lighten` closure inside `deriveSecondaryFromPrimary`:
`clamp(c * 1.25 + 20, 0, 255)`. -/
def lighten (c : ℚ) : ℚ :=
  clamp (c * 1.25 + 20) 0 255

/-- `deriveSecondaryFromPrimary` from the source. -/
def deriveSecondaryFromPrimary (r g b : ℚ) : String :=
  toRgbTripletString (lighten r) (lighten g) (lighten b)

/-- One RGBA pixel sample as read back from the raster (`data[i]`,
`data[i+1]`, `data[i+2]`, `data[i+3]`, each an integer in 0..255). -/
structure Pixel where
  r : ℕ
  g : ℕ
  b : ℕ
  a : ℕ

/-- The environment outcome of loading and sampling one image reference in
`computeAverageColor`: the `onerror` path, a `null` 2d context, an exception
thrown while drawing or reading pixels, or a successful readback of the
raster's pixel data. -/
inductive ImageOutcome
  | loadFailure
  | noRasterContext
  | drawException
  | decoded (pixels : List Pixel)

/-- Accumulator of the sampling loop in `computeAverageColor`:
`let r = 0, g = 0, b = 0, count = 0`. -/
structure SampleAcc where
  r : ℚ
  g : ℚ
  b : ℚ
  count : ℕ

/-- One iteration of the sampling loop: skip the pixel when
`alpha = data[i + 3] / 255 < 0.1`, otherwise accumulate its channels and
increment `count`. -/
def sampleStep (acc : SampleAcc) (p : Pixel) : SampleAcc :=
  if (p.a : ℚ) / 255 < 0.1 then acc
  else ⟨acc.r + p.r, acc.g + p.g, acc.b + p.b, acc.count + 1⟩

/-- `computeAverageColor` from the source, as the total function the returned
promise resolves with: a load failure, a missing raster context, or a thrown
exception each resolve with the fallback `[85, 37, 131]`; a successful
readback averages the contributing pixels, resolving with the same fallback
when no pixel contributed. -/
def computeAverageColor : ImageOutcome → ℚ × ℚ × ℚ
  | .loadFailure => (85, 37, 131)
  | .noRasterContext => (85, 37, 131)
  | .drawException => (85, 37, 131)
  | .decoded pixels =>
    let acc := pixels.foldl sampleStep ⟨0, 0, 0, 0⟩
    if acc.count = 0 then (85, 37, 131)
    else (acc.r / acc.count, acc.g / acc.count, acc.b / acc.count)

/-- The `boost` closure in the accent effect: `clamp(c * 1.05, 0, 255)`. -/
def boost (c : ℚ) : ℚ :=
  clamp (c * 1.05) 0 255

/-- The accepted-resolution body of the accent effect: boost each sampled
mean channel, publish the rounded primary triplet string, and publish the
secondary derived from the boosted (pre-rounding) primary components. -/
def applyAccent (c : ℚ × ℚ × ℚ) : String × String :=
  (toRgbTripletString (boost c.1) (boost c.2.1) (boost c.2.2),
   deriveSecondaryFromPrimary (boost c.1) (boost c.2.1) (boost c.2.2))

/-- The hook's external input that the claims depend on: the image url list.
`intervalMs` and `crossfadeMs` only determine when the modelled events fire,
which is abstracted into the event order. -/
structure Config where
  urls : List String

/-- `currentUrl` from the source:
`imageUrls.length > 0 ? imageUrls[index % imageUrls.length] : null`. -/
def currentUrlOf (urls : List String) (i : ℕ) : Option String :=
  if 0 < urls.length then urls[i % urls.length]? else none

/-- `previousUrl` from the source:
`previousIndex !== null && imageUrls.length > 0 ?
 imageUrls[previousIndex % imageUrls.length] : null`. -/
def previousUrlOf (urls : List String) : Option ℕ → Option String
  | none => none
  | some p => if 0 < urls.length then urls[p % urls.length]? else none

/-- The hook's mutable state.  `index`, `previousIndex`, `isFading`,
`accentPrimaryRgb` and `accentSecondaryRgb` are the five `useState` cells.
`fadePending` records whether the one-shot `setIsFading(false)` timeout held
in `fadeRef` is scheduled and not yet cancelled.  `sampleGen` numbers the
successive instances of the accent effect (the effect keyed on `currentUrl`):
a new instance starts, and the previous instance's `cancelled` closure flag is
set, exactly when the value of `currentUrl` changes. -/
structure HookState where
  index : ℕ
  previousIndex : Option ℕ
  isFading : Bool
  accentPrimaryRgb : String
  accentSecondaryRgb : String
  fadePending : Bool
  sampleGen : ℕ

/-- The state on mount: `useState(0)`, `useState(null)`, `useState(false)`,
and the default accent strings; no fade timeout is pending, and the mount-time
accent effect instance is numbered 0. -/
def initState : HookState :=
  { index := 0
    previousIndex := none
    isFading := false
    accentPrimaryRgb := "85 37 131"
    accentSecondaryRgb := "253 185 39"
    fadePending := false
    sampleGen := 0 }

/-- The discrete events driving the hook:
* `tick` — the recurring interval callback fires;
* `fadeFire` — the scheduled `setIsFading(false)` timeout fires (a no-op when
  it has been cancelled, i.e. when no fade-clear is pending);
* `sampleResolve gen outcome` — the `computeAverageColor` promise started by
  accent-effect instance `gen` resolves with environment outcome `outcome`. -/
inductive Event
  | tick
  | fadeFire
  | sampleResolve (gen : ℕ) (outcome : ImageOutcome)

/-- One event of the hook, including the React effect processing the event
triggers before the next timer can fire.

On `tick`, the interval callback records `previousIndex`, sets `isFading`,
advances `index` to `(index + 1) % Math.max(1, imageUrls.length)`, and
schedules the fade-clear timeout.  The cycle effect's dependency array
contains `index`, so when the new index differs from the old one the effect
is cleaned up and re-run before the timeout can fire; the cleanup calls
`window.clearTimeout(fadeRef.current)`, cancelling the just-scheduled
fade-clear, so `fadePending` is true after a tick only when the index did not
change.  The accent effect's dependency array is `[currentUrl]`, so exactly
when the tick changes the value of `currentUrl`, the running sample is
cancelled and a new instance (the next `sampleGen`) starts.

On `fadeFire`, a pending fade-clear runs `setIsFading(false)`; a cancelled
one does nothing.

On `sampleResolve`, the resolution body checks the instance's `cancelled`
flag — the result is applied exactly when its instance is still the current
one — and then publishes the boosted primary triplet and derived secondary. -/
def step (cfg : Config) (s : HookState) : Event → HookState
  | .tick =>
    { s with
      previousIndex := some s.index
      isFading := true
      index := (s.index + 1) % max 1 cfg.urls.length
      fadePending :=
        if (s.index + 1) % max 1 cfg.urls.length = s.index then true else false
      sampleGen :=
        if currentUrlOf cfg.urls ((s.index + 1) % max 1 cfg.urls.length)
            = currentUrlOf cfg.urls s.index
        then s.sampleGen else s.sampleGen + 1 }
  | .fadeFire =>
    if s.fadePending then { s with isFading := false, fadePending := false } else s
  | .sampleResolve gen outcome =>
    if gen = s.sampleGen then
      { s with
        accentPrimaryRgb := (applyAccent (computeAverageColor outcome)).1
        accentSecondaryRgb := (applyAccent (computeAverageColor outcome)).2 }
    else s

/-- Running the hook from mount through a list of events. -/
def run (cfg : Config) (es : List Event) : HookState :=
  es.foldl (step cfg) initState

/- Helper lemmas shared by the claim theorems. -/

theorem index_after_replicate_ticks (cfg : Config) :
    ∀ (N : ℕ) (s : HookState), s.index < max 1 cfg.urls.length →
      ((List.replicate N Event.tick).foldl (step cfg) s).index
        = (s.index + N) % max 1 cfg.urls.length := by
  intro N
  induction N with
  | zero =>
    intro s hs
    simpa using (Nat.mod_eq_of_lt hs).symm
  | succ n ih =>
    intro s hs
    rw [List.replicate_succ, List.foldl_cons]
    have hM : 0 < max 1 cfg.urls.length := by omega
    have h1 : (step cfg s Event.tick).index = (s.index + 1) % max 1 cfg.urls.length := rfl
    rw [ih _ (by rw [h1]; exact Nat.mod_lt _ hM)]
    rw [h1, Nat.mod_add_mod]
    congr 1
    omega

theorem index_preserved_nontick (cfg : Config) (s : HookState) :
    ∀ e : Event, e ≠ Event.tick → (step cfg s e).index = s.index := by
  intro e he
  cases e with
  | tick => exact absurd rfl he
  | fadeFire =>
    show (if s.fadePending then _ else s).index = s.index
    split <;> rfl
  | sampleResolve gen outcome =>
    show (if gen = s.sampleGen then _ else s).index = s.index
    split <;> rfl

theorem previousIndex_preserved_nontick (cfg : Config) (s : HookState) :
    ∀ e : Event, e ≠ Event.tick → (step cfg s e).previousIndex = s.previousIndex := by
  intro e he
  cases e with
  | tick => exact absurd rfl he
  | fadeFire =>
    show (if s.fadePending then _ else s).previousIndex = s.previousIndex
    split <;> rfl
  | sampleResolve gen outcome =>
    show (if gen = s.sampleGen then _ else s).previousIndex = s.previousIndex
    split <;> rfl

theorem fadeStuck_step (cfg : Config) (h2 : 2 ≤ cfg.urls.length) (s : HookState)
    (hs : s.isFading = true ∧ s.fadePending = false ∧ s.index < cfg.urls.length) :
    ∀ e : Event,
      (step cfg s e).isFading = true ∧ (step cfg s e).fadePending = false
        ∧ (step cfg s e).index < cfg.urls.length := by
  obtain ⟨hf, hp, hi⟩ := hs
  intro e
  cases e with
  | tick =>
    have hmax : max 1 cfg.urls.length = cfg.urls.length := max_eq_right (by omega)
    have hne : (s.index + 1) % max 1 cfg.urls.length ≠ s.index := by
      rw [hmax]
      rcases Nat.lt_or_ge (s.index + 1) cfg.urls.length with h | h
      · rw [Nat.mod_eq_of_lt h]; omega
      · have hEq : s.index + 1 = cfg.urls.length := by omega
        rw [hEq, Nat.mod_self]; omega
    refine ⟨rfl, ?_, ?_⟩
    · show (if (s.index + 1) % max 1 cfg.urls.length = s.index then true else false) = false
      rw [if_neg hne]
    · show (s.index + 1) % max 1 cfg.urls.length < cfg.urls.length
      rw [hmax]
      exact Nat.mod_lt _ (by omega)
  | fadeFire =>
    refine ⟨?_, ?_, ?_⟩ <;> simp [step, hp, hf, hi]
  | sampleResolve gen outcome =>
    by_cases hg : gen = s.sampleGen <;>
      refine ⟨?_, ?_, ?_⟩ <;> simp [step, hg, hp, hf, hi]

theorem fadeStuck_run (cfg : Config) (h2 : 2 ≤ cfg.urls.length) :
    ∀ (es : List Event) (s : HookState),
      s.isFading = true ∧ s.fadePending = false ∧ s.index < cfg.urls.length →
      (es.foldl (step cfg) s).isFading = true := by
  intro es
  induction es with
  | nil => intro s hs; exact hs.1
  | cons e es ih =>
    intro s hs
    rw [List.foldl_cons]
    exact ih _ (fadeStuck_step cfg h2 s hs e)

theorem sampleLoop_all_skipped :
    ∀ (pixels : List Pixel) (acc : SampleAcc),
      (∀ p ∈ pixels, (p.a : ℚ) / 255 < 0.1) →
      pixels.foldl sampleStep acc = acc := by
  intro pixels
  induction pixels with
  | nil => intro acc _; rfl
  | cons p ps ih =>
    intro acc h
    rw [List.foldl_cons]
    have hstep : sampleStep acc p = acc := by
      rw [sampleStep, if_pos (h p (List.mem_cons_self p ps))]
    rw [hstep]
    exact ih acc fun q hq => h q (List.mem_cons_of_mem p hq)

theorem jsRound_boost_85 : jsRound (boost 85) = 89 := by
  norm_num [jsRound, boost, clamp, min_def, max_def]

theorem jsRound_boost_37 : jsRound (boost 37) = 39 := by
  norm_num [jsRound, boost, clamp, min_def, max_def]

theorem jsRound_boost_131 : jsRound (boost 131) = 138 := by
  norm_num [jsRound, boost, clamp, min_def, max_def]

theorem jsRound_lighten_boost_85 : jsRound (lighten (boost 85)) = 132 := by
  norm_num [jsRound, lighten, boost, clamp, min_def, max_def]

theorem jsRound_lighten_boost_37 : jsRound (lighten (boost 37)) = 69 := by
  norm_num [jsRound, lighten, boost, clamp, min_def, max_def]

theorem jsRound_lighten_boost_131 : jsRound (lighten (boost 131)) = 192 := by
  norm_num [jsRound, lighten, boost, clamp, min_def, max_def]

theorem foldl_previousIndex_none_iff (cfg : Config) :
    ∀ (es : List Event) (s : HookState),
      (es.foldl (step cfg) s).previousIndex = none
        ↔ s.previousIndex = none ∧ Event.tick ∉ es := by
  intro es
  induction es with
  | nil => intro s; simp
  | cons e es ih =>
    intro s
    rw [List.foldl_cons, ih]
    cases e with
    | tick =>
      have htick : (step cfg s Event.tick).previousIndex = some s.index := rfl
      simp [htick]
    | fadeFire =>
      rw [previousIndex_preserved_nontick cfg s Event.fadeFire (by simp)]
      simp
    | sampleResolve gen outcome =>
      rw [previousIndex_preserved_nontick cfg s (Event.sampleResolve gen outcome) (by simp)]
      simp

theorem empty_run_index_eq_zero :
    ∀ (es : List Event) (s : HookState), s.index = 0 →
      (es.foldl (step (⟨[]⟩ : Config)) s).index = 0 := by
  intro es
  induction es with
  | nil => intro s hs; exact hs
  | cons e es ih =>
    intro s hs
    rw [List.foldl_cons]
    apply ih
    cases e with
    | tick =>
      show (s.index + 1) % max 1 (List.length ([] : List String)) = 0
      rw [hs]
      decide
    | fadeFire => rw [index_preserved_nontick _ s Event.fadeFire (by simp), hs]
    | sampleResolve gen outcome =>
      rw [index_preserved_nontick _ s (Event.sampleResolve gen outcome) (by simp), hs]

/- Claim theorems. -/

/-- C1: for every image sequence of length L ≥ 1 and every N, after N timer
ticks the current index equals N mod L (the tick handler advances the index
by `(i + 1) % Math.max(1, L)` starting from index 0). -/
theorem rotation_index_after_ticks (urls : List String) (hL : 1 ≤ urls.length) (N : ℕ) :
    (run ⟨urls⟩ (List.replicate N Event.tick)).index = N % urls.length := by
  have hmax : max 1 urls.length = urls.length := max_eq_right hL
  have h := index_after_replicate_ticks ⟨urls⟩ N initState (by rw [hmax]; exact hL)
  rw [run, h]
  rw [show initState.index = 0 from rfl, hmax, Nat.zero_add]

theorem rotation_index_after_ticks_witness :
    1 ≤ (["a", "b", "c"] : List String).length
      ∧ (run ⟨["a", "b", "c"]⟩ (List.replicate 5 Event.tick)).index
          = 5 % (["a", "b", "c"] : List String).length :=
  ⟨by decide, rotation_index_after_ticks ["a", "b", "c"] (by decide) 5⟩

/-- C2: stale-result rejection.  Start on image A with B next (`urls = [A, B]`,
the mount-time sample for A is instance 0).  A tick makes B active, cancelling
instance 0 and starting instance 1 for B.  If B's sample then resolves and A's
resolves afterwards, the published accent strings are those computed from B's
result: A's late result is rejected because its instance is no longer the
current one. -/
theorem stale_sample_rejected (A B : String) (hAB : A ≠ B) (outA outB : ImageOutcome) :
    (run ⟨[A, B]⟩
        [Event.tick, Event.sampleResolve 1 outB, Event.sampleResolve 0 outA]).accentPrimaryRgb
      = (applyAccent (computeAverageColor outB)).1
    ∧ (run ⟨[A, B]⟩
        [Event.tick, Event.sampleResolve 1 outB, Event.sampleResolve 0 outA]).accentSecondaryRgb
      = (applyAccent (computeAverageColor outB)).2 := by
  have hBA : ¬(B = A) := fun h => hAB h.symm
  constructor <;>
    simp [run, step, initState, currentUrlOf, hBA]

theorem stale_sample_rejected_witness :
    ("a" : String) ≠ "b"
      ∧ (run ⟨["a", "b"]⟩
          [Event.tick, Event.sampleResolve 1 ImageOutcome.loadFailure,
           Event.sampleResolve 0 (ImageOutcome.decoded [])]).accentPrimaryRgb
        = (applyAccent (computeAverageColor ImageOutcome.loadFailure)).1 :=
  ⟨by decide,
   (stale_sample_rejected "a" "b" (by decide) (ImageOutcome.decoded [])
      ImageOutcome.loadFailure).1⟩

/-- C3: the accent color extractor never fails observably.  The promise body
is total — every environment outcome resolves with some triplet — and each
failure path (image load failure, unavailable raster context, exception
during sampling) resolves with the fallback triplet (85, 37, 131); no error
is propagated to the caller. -/
theorem extractor_never_fails :
    (∀ outcome : ImageOutcome, ∃ c : ℚ × ℚ × ℚ, computeAverageColor outcome = c)
    ∧ computeAverageColor ImageOutcome.loadFailure = (85, 37, 131)
    ∧ computeAverageColor ImageOutcome.noRasterContext = (85, 37, 131)
    ∧ computeAverageColor ImageOutcome.drawException = (85, 37, 131) :=
  ⟨fun _ => ⟨_, rfl⟩, rfl, rfl, rfl⟩

/-- C4 (refuting evaluation for the fade-flag timing claim): with two or more
images, once the first tick occurs `isFading` is true and remains true after
every further event sequence — in particular it is never cleared `crossfadeMs`
after the tick.  The tick's `setIndex` changes `index`, which is in the cycle
effect's dependency array, so the effect cleanup runs
`window.clearTimeout(fadeRef.current)` and cancels the fade-clear scheduled
by that same tick before it can fire. -/
theorem isFading_stuck_after_tick (urls : List String) (h2 : 2 ≤ urls.length)
    (es : List Event) :
    (run ⟨urls⟩ (Event.tick :: es)).isFading = true := by
  rw [run, List.foldl_cons]
  apply fadeStuck_run ⟨urls⟩ h2 es
  have hmax : max 1 urls.length = urls.length := max_eq_right (by omega)
  have hne : (initState.index + 1) % max 1 urls.length ≠ initState.index := by
    rw [show initState.index = 0 from rfl, hmax]
    rw [Nat.mod_eq_of_lt (by omega : 0 + 1 < urls.length)]
    omega
  refine ⟨rfl, ?_, ?_⟩
  · show (if (initState.index + 1) % max 1 urls.length = initState.index
        then true else false) = false
    rw [if_neg hne]
  · show (initState.index + 1) % max 1 urls.length < urls.length
    rw [hmax]
    exact Nat.mod_lt _ (by omega)

theorem isFading_stuck_after_tick_witness :
    2 ≤ (["a", "b"] : List String).length
      ∧ (run ⟨["a", "b"]⟩ (Event.tick :: [Event.fadeFire])).isFading = true :=
  ⟨by decide, isFading_stuck_after_tick ["a", "b"] (by decide) [Event.fadeFire]⟩

/-- C5: secondary derivation law.  The secondary triplet is the deterministic
image of the primary triplet under the fixed affine lighten transform: each
channel is `clamp(c * 1.25 + 20, 0, 255)` rounded to the nearest integer; the
published secondary is always `deriveSecondaryFromPrimary` of the boosted
primary components; and the boundary channels evaluate to 0 ↦ 20,
204 ↦ 255 (clamped), 255 ↦ 255. -/
theorem secondary_derivation_law :
    (∀ r g b : ℚ, deriveSecondaryFromPrimary r g b
        = toRgbTripletString (clamp (r * 1.25 + 20) 0 255) (clamp (g * 1.25 + 20) 0 255)
            (clamp (b * 1.25 + 20) 0 255))
    ∧ (∀ c : ℚ × ℚ × ℚ, (applyAccent c).2
        = deriveSecondaryFromPrimary (boost c.1) (boost c.2.1) (boost c.2.2))
    ∧ jsRound (lighten 0) = 20 ∧ jsRound (lighten 204) = 255 ∧ jsRound (lighten 255) = 255 := by
  refine ⟨fun r g b => rfl, fun c => rfl, ?_, ?_, ?_⟩ <;>
    norm_num [jsRound, lighten, clamp, min_def, max_def]

/-- C6: fallback determinism.  Whenever the sample of the currently active
image resolves with a load failure, the published primary string is
"89 39 138" (the fallback (85, 37, 131) with each channel boosted by 1.05,
clamped and rounded) and the published secondary is derived from that boosted
primary by the fixed affine lighten transform (concretely "132 69 192"). -/
theorem fallback_determinism (cfg : Config) (s : HookState) :
    (step cfg s (Event.sampleResolve s.sampleGen ImageOutcome.loadFailure)).accentPrimaryRgb
        = "89 39 138"
    ∧ (step cfg s (Event.sampleResolve s.sampleGen ImageOutcome.loadFailure)).accentSecondaryRgb
        = deriveSecondaryFromPrimary (boost 85) (boost 37) (boost 131)
    ∧ deriveSecondaryFromPrimary (boost 85) (boost 37) (boost 131) = "132 69 192" := by
  have hsec : deriveSecondaryFromPrimary (boost 85) (boost 37) (boost 131) = "132 69 192" := by
    rw [deriveSecondaryFromPrimary, toRgbTripletString,
      jsRound_lighten_boost_85, jsRound_lighten_boost_37, jsRound_lighten_boost_131]
    decide
  have hstep : step cfg s (Event.sampleResolve s.sampleGen ImageOutcome.loadFailure)
      = { s with
          accentPrimaryRgb := (applyAccent (computeAverageColor ImageOutcome.loadFailure)).1
          accentSecondaryRgb := (applyAccent (computeAverageColor ImageOutcome.loadFailure)).2 } := by
    show (if s.sampleGen = s.sampleGen then _ else s) = _
    rw [if_pos rfl]
  refine ⟨?_, ?_, hsec⟩
  · rw [hstep]
    show toRgbTripletString (boost 85) (boost 37) (boost 131) = "89 39 138"
    rw [toRgbTripletString, jsRound_boost_85, jsRound_boost_37, jsRound_boost_131]
    decide
  · rw [hstep]
    rfl

/-- C7: alpha thresholding is safe.  If every pixel of the sampled image has
alpha below the 10% opacity threshold (`data[i + 3] / 255 < 0.1`), no pixel
contributes, and the sample resolves with the fallback triplet (85, 37, 131)
instead of dividing by a zero count. -/
theorem alpha_threshold_fallback (pixels : List Pixel)
    (h : ∀ p ∈ pixels, (p.a : ℚ) / 255 < 0.1) :
    computeAverageColor (ImageOutcome.decoded pixels) = (85, 37, 131) := by
  show (let acc := pixels.foldl sampleStep ⟨0, 0, 0, 0⟩
        if acc.count = 0 then ((85 : ℚ), (37 : ℚ), (131 : ℚ))
        else (acc.r / acc.count, acc.g / acc.count, acc.b / acc.count)) = (85, 37, 131)
  rw [sampleLoop_all_skipped pixels ⟨0, 0, 0, 0⟩ h]
  rfl

theorem alpha_threshold_fallback_witness :
    (∀ p ∈ [({ r := 200, g := 10, b := 10, a := 20 } : Pixel)], (p.a : ℚ) / 255 < 0.1)
      ∧ computeAverageColor
          (ImageOutcome.decoded [{ r := 200, g := 10, b := 10, a := 20 }]) = (85, 37, 131) := by
  have hp : ∀ p ∈ [({ r := 200, g := 10, b := 10, a := 20 } : Pixel)],
      (p.a : ℚ) / 255 < 0.1 := by
    intro p hmem
    rw [List.mem_singleton] at hmem
    rw [hmem]
    norm_num
  exact ⟨hp, alpha_threshold_fallback _ hp⟩

/-- C8 counterexample: with a single image, a tick does not change `index`, so
the cycle effect is not re-run and the fade-clear timeout survives and fires;
afterwards the engine is not fading, yet the published previous image
reference is present — refuting the claim that `previousIndex` is set only
during an active transition. -/
theorem previousUrl_present_while_not_fading :
    (run ⟨["u"]⟩ [Event.tick, Event.fadeFire]).isFading = false
    ∧ previousUrlOf ["u"] (run ⟨["u"]⟩ [Event.tick, Event.fadeFire]).previousIndex
        = some "u" := by
  constructor <;> rfl

/-- C8 amended: `previousIndex` is absent exactly when no tick has yet
occurred.  The first tick sets it and no operation ever clears it, so it can
remain set while the engine is not fading. -/
theorem previousIndex_none_iff_no_tick (cfg : Config) (es : List Event) :
    (run cfg es).previousIndex = none ↔ Event.tick ∉ es := by
  rw [run, foldl_previousIndex_none_iff]
  rw [show initState.previousIndex = none from rfl]
  simp

/-- C9: empty-sequence degenerate state.  With no images, every tick still
advances the index modulo `Math.max(1, 0) = 1`, so the index stays 0, and the
published current and previous image references are absent; every operation
is total, so no error is raised. -/
theorem empty_sequence_degenerate (es : List Event) :
    (run ⟨[]⟩ es).index = 0
    ∧ currentUrlOf [] (run ⟨[]⟩ es).index = none
    ∧ previousUrlOf [] (run ⟨[]⟩ es).previousIndex = none := by
  refine ⟨empty_run_index_eq_zero es initState rfl, ?_, ?_⟩
  · rw [currentUrlOf]
    simp
  · cases h : (run ⟨[]⟩ es).previousIndex with
    | none => rfl
    | some p => simp [previousUrlOf]

/-- C10: frame property of a timer tick.  Every event either leaves both
accent color strings unchanged (this covers every tick and every fade-clear,
as well as every stale sample), or it is the resolution of the sample started
by the currently active accent-effect instance — the accent strings change
only when a sample for the currently active image resolves. -/
theorem accent_frame_property (cfg : Config) (s : HookState) (e : Event) :
    ((step cfg s e).accentPrimaryRgb = s.accentPrimaryRgb
      ∧ (step cfg s e).accentSecondaryRgb = s.accentSecondaryRgb)
    ∨ ∃ outcome : ImageOutcome, e = Event.sampleResolve s.sampleGen outcome := by
  cases e with
  | tick => exact Or.inl ⟨rfl, rfl⟩
  | fadeFire =>
    left
    cases hp : s.fadePending <;> simp [step, hp]
  | sampleResolve gen outcome =>
    by_cases hg : gen = s.sampleGen
    · exact Or.inr ⟨outcome, by rw [hg]⟩
    · left
      constructor <;> simp [step, hg]

end BackgroundCycle
